import Mathlib

/-!
Verification of the `have` compiler front-end core (type algebra, scope
stack, label maps, and the package-level topological sort) against its
natural-language specification.

The Go source is shallowly embedded: Go interface taxonomies become
inductive types, Go maps become association lists read through `List.lookup`
(first binding wins, matching map-overwrite semantics), Go `nil` results
become `Option`, and Go `error` returns become `Except`/`Option String`.
The `IdentStack` slice keeps the Go orientation: index 0 is the outermost
scope and scopes are pushed at the end.

Fields of the Go structs that no embedded operation reads or writes
(source positions, statement labels, struct method lists, variable
initializer expressions, a code block's statement slice) are omitted from
the corresponding Lean structures; every field an embedded operation
touches is carried faithfully.

`topoSort`, the internals of `TopLevelStmt`, and the `Negotiate`
implementations are not part of the provided sources (only their callers,
tests and interface declarations are); those are modelled from the spec
and are marked as such in their doc comments.
-/

set_option maxHeartbeats 1000000

namespace Have

/-! ### Kind and SimpleTypeID constants (ast.go: `Kind`, `SimpleTypeID`) -/

def KIND_SIMPLE : Nat := 1

def KIND_ARRAY : Nat := 2

def KIND_SLICE : Nat := 3

def KIND_MAP : Nat := 4

def KIND_POINTER : Nat := 5

def KIND_CUSTOM : Nat := 6

def KIND_STRUCT : Nat := 7

def KIND_TUPLE : Nat := 8

def KIND_FUNC : Nat := 9

def KIND_UNKNOWN : Nat := 10

def SIMPLE_TYPE_INT : Nat := 1

def SIMPLE_TYPE_STRING : Nat := 2

def SIMPLE_TYPE_BOOL : Nat := 3

/-! ### The type algebra (ast.go: `Type` interface and its implementations).

`Typ.structT` carries the ordered field list (Go's `Keys` together with the
`Members` map) and the struct's name; `Typ.mapT` mirrors Go's `MapType`
with fields `By` and `Of`; `Typ.custom` mirrors `CustomType` with `Name`,
`Package` and `Decl`; `TypeDecl` mirrors the Go struct of the same name
(`name`, `AliasedType`, where `AliasedType = none` is Go's nil). -/

mutual

inductive Typ : Type where
  | simple (id : Nat)
  | array (Size : Int) (Of : Typ)
  | slice (Of : Typ)
  | mapT (By Of : Typ)
  | pointer (To : Typ)
  | tuple (Members : List Typ)
  | structT (Members : List (String × Typ)) (Name : String)
  | funcT (Args Results : List Typ)
  | custom (Name Package : String) (Decl : TypeDecl)
  | unknown

inductive TypeDecl : Type where
  | mk (name : String) (AliasedType : Option Typ)

end

def TypeDecl.name : TypeDecl → String
  | .mk n _ => n

def TypeDecl.aliasedType : TypeDecl → Option Typ
  | .mk _ a => a

/-- `Kind()` of each type variant (ast.go). -/
def Typ.kind : Typ → Nat
  | .simple _ => KIND_SIMPLE
  | .array _ _ => KIND_ARRAY
  | .slice _ => KIND_SLICE
  | .mapT _ _ => KIND_MAP
  | .pointer _ => KIND_POINTER
  | .tuple _ => KIND_TUPLE
  | .structT _ _ => KIND_STRUCT
  | .funcT _ _ => KIND_FUNC
  | .custom _ _ _ => KIND_CUSTOM
  | .unknown => KIND_UNKNOWN

mutual

/-- `Known()` of each type variant, exactly as in ast.go: simple types are
known, composites recurse into their member types, `CustomType.Known`
returns `true` unconditionally, and `UnknownType.Known` returns `false`. -/
def Typ.known : Typ → Bool
  | .simple _ => true
  | .array _ of => of.known
  | .slice of => of.known
  | .mapT b o => b.known && o.known
  | .pointer t => t.known
  | .tuple ms => knownList ms
  | .structT ms _ => knownFields ms
  | .funcT as rs => knownList as && knownList rs
  | .custom _ _ _ => true
  | .unknown => false

/-- Conjunction of `Known()` over a list of types (the loops in
`FuncType.Known` and `TupleType.Known`). -/
def knownList : List Typ → Bool
  | [] => true
  | t :: ts => t.known && knownList ts

/-- Conjunction of `Known()` over a struct's members (the loop in
`StructType.Known`). -/
def knownFields : List (String × Typ) → Bool
  | [] => true
  | (_, t) :: ts => t.known && knownFields ts

end

/-- ast.go: `simpleTypeStrToID`, the inverse of `simpleTypeAsStr` built by
`initSimpleTypeIDs`.  A name that is not registered yields the Go map's
zero value `0`. -/
def simpleTypeStrToID (s : String) : Nat :=
  if s = "int" then SIMPLE_TYPE_INT
  else if s = "string" then SIMPLE_TYPE_STRING
  else if s = "bool" then SIMPLE_TYPE_BOOL
  else 0

/-- ast.go: `TypeDecl.Type()` — a declaration with no aliased type denotes
the simple type registered under its name, otherwise a `CustomType`
carrying the declaration itself (and the zero-value package `""`). -/
def TypeDecl.typ : TypeDecl → Typ
  | .mk name none => .simple (simpleTypeStrToID name)
  | d@(.mk name (some _)) => .custom name "" d

/-- ast.go: `builtinTypeNames`. -/
def builtinTypeNames : List String :=
  ["bool", "byte", "complex128", "complex64", "error", "float32",
   "float64", "int", "int16", "int32", "int64", "int8", "rune",
   "string", "uint", "uint16", "uint32", "uint64", "uint8", "uintptr"]

/-- ast.go: the `builtinTypes` map as populated by `initVarDecls`: every
builtin name maps to a `TypeDecl` with that name and nil `AliasedType`. -/
def builtinTypes (name : String) : Option TypeDecl :=
  if name ∈ builtinTypeNames then some (.mk name none) else none

/-- ast.go: `GetBuiltinType`. -/
def GetBuiltinType (name : String) : Option TypeDecl :=
  builtinTypes name

/-- ast.go: `CustomType.RootType()`'s loop — follow `Decl.AliasedType`
while the current type is a `CustomType`.  Go dereferences the alias
unconditionally, so a nil `AliasedType` reached along the chain is a nil
pointer dereference (a panic); that is modelled as `none`. -/
def rootTypeFrom : Option Typ → Option Typ
  | none => none
  | some (.custom _ _ (.mk _ a)) => rootTypeFrom a
  | some t => some t

/-- ast.go: `CustomType.RootType()`.  The receiver is a `CustomType`; the
method is not defined on any other variant, which is modelled as `none`. -/
def Typ.rootType : Typ → Option Typ
  | .custom _ _ (.mk _ a) => rootTypeFrom a
  | _ => none

/-- The alias chain starting at this aliased type reaches a non-Custom
type: it never hits a nil `AliasedType` (on which Go's `RootType` would
panic). -/
def chainOk : Option Typ → Bool
  | none => false
  | some (.custom _ _ (.mk _ a)) => chainOk a
  | some _ => true

mutual

/-- Spec-side predicate, following the words of the claim: an `Unknown`
appears somewhere in the type's structure, recursing through composite
members and through the aliased type of a `Custom` declaration. -/
def containsUnknownSpec : Typ → Bool
  | .simple _ => false
  | .array _ of => containsUnknownSpec of
  | .slice of => containsUnknownSpec of
  | .mapT b o => containsUnknownSpec b || containsUnknownSpec o
  | .pointer t => containsUnknownSpec t
  | .tuple ms => containsUnknownSpecList ms
  | .structT ms _ => containsUnknownSpecFields ms
  | .funcT as rs => containsUnknownSpecList as || containsUnknownSpecList rs
  | .custom _ _ (.mk _ a) => containsUnknownSpecOpt a
  | .unknown => true

def containsUnknownSpecOpt : Option Typ → Bool
  | none => false
  | some t => containsUnknownSpec t

def containsUnknownSpecList : List Typ → Bool
  | [] => false
  | t :: ts => containsUnknownSpec t || containsUnknownSpecList ts

def containsUnknownSpecFields : List (String × Typ) → Bool
  | [] => false
  | (_, t) :: ts => containsUnknownSpec t || containsUnknownSpecFields ts

end

mutual

/-- An `Unknown` appears in the type's structure when recursion stops at
`Custom` types (a `Custom` is treated as opaque, never containing an
`Unknown`) — the occurrence predicate that `Known()` actually decides. -/
def shallowUnknown : Typ → Bool
  | .simple _ => false
  | .array _ of => shallowUnknown of
  | .slice of => shallowUnknown of
  | .mapT b o => shallowUnknown b || shallowUnknown o
  | .pointer t => shallowUnknown t
  | .tuple ms => shallowUnknownList ms
  | .structT ms _ => shallowUnknownFields ms
  | .funcT as rs => shallowUnknownList as || shallowUnknownList rs
  | .custom _ _ _ => false
  | .unknown => true

def shallowUnknownList : List Typ → Bool
  | [] => false
  | t :: ts => shallowUnknown t || shallowUnknownList ts

def shallowUnknownFields : List (String × Typ) → Bool
  | [] => false
  | (_, t) :: ts => shallowUnknown t || shallowUnknownFields ts

end

mutual

/-- Structural identity of two types (spec §4.1: two Known types negotiate
successfully exactly when they are structurally identical, recursively). -/
def typEq : Typ → Typ → Bool
  | .simple i, .simple j => i == j
  | .array n a, .array m b => n == m && typEq a b
  | .slice a, .slice b => typEq a b
  | .mapT b1 o1, .mapT b2 o2 => typEq b1 b2 && typEq o1 o2
  | .pointer a, .pointer b => typEq a b
  | .tuple xs, .tuple ys => typListEq xs ys
  | .structT m1 n1, .structT m2 n2 => n1 == n2 && typFieldsEq m1 m2
  | .funcT a1 r1, .funcT a2 r2 => typListEq a1 a2 && typListEq r1 r2
  | .custom n1 p1 d1, .custom n2 p2 d2 => n1 == n2 && p1 == p2 && typDeclEq d1 d2
  | .unknown, .unknown => true
  | _, _ => false

def typListEq : List Typ → List Typ → Bool
  | [], [] => true
  | x :: xs, y :: ys => typEq x y && typListEq xs ys
  | _, _ => false

def typFieldsEq : List (String × Typ) → List (String × Typ) → Bool
  | [], [] => true
  | (k1, t1) :: xs, (k2, t2) :: ys => k1 == k2 && typEq t1 t2 && typFieldsEq xs ys
  | _, _ => false

def typDeclEq : TypeDecl → TypeDecl → Bool
  | .mk n1 a1, .mk n2 a2 => n1 == n2 && typOptEq a1 a2

def typOptEq : Option Typ → Option Typ → Bool
  | none, none => true
  | some a, some b => typEq a b
  | _, _ => false

end

/-- Modelled from the spec: the `Negotiate` implementations are not under
src (ast.go only declares `Negotiate` in the `Type` interface).  Spec §4.1:
if one side is Unknown and the other Known, the Known type wins; if both
are Unknown, negotiation fails; if both are Known they must be structurally
identical or negotiation fails with a type mismatch. -/
def negotiate (a b : Typ) : Except String Typ :=
  if a.kind == KIND_UNKNOWN then
    if b.kind == KIND_UNKNOWN then .error "cannot infer type: both sides unknown"
    else .ok b
  else if b.kind == KIND_UNKNOWN then .ok a
  else if typEq a b then .ok a
  else .error "types mismatch"

/-! ### Objects and the scope stack (ast.go: `Object` and friends;
the unnamed source file: `IdentStack`). -/

def OBJECT_VAR : Nat := 1

def OBJECT_TYPE : Nat := 2

def OBJECT_PACKAGE : Nat := 3

def OBJECT_LABEL : Nat := 4

/-- ast.go: `Variable` (name and type; the `Init` expression is omitted —
no embedded operation reads it). -/
structure Variable where
  name : String
  typ : Typ

/-- ast.go: `LabelStmt` (its name; the embedded `stmt` and the
`Branchable` back-reference are omitted — no embedded operation reads
them). -/
structure LabelStmt where
  name : String

/-- ast.go: the `Object` interface, as the closed sum of its four
implementations (`Variable`, `TypeDecl`, `Package`, `LabelStmt`). -/
inductive Object where
  | var (v : Variable)
  | typeDecl (d : TypeDecl)
  | package (name : String)
  | label (l : LabelStmt)

/-- ast.go: `Name()` of each Object implementation. -/
def Object.name : Object → String
  | .var v => v.name
  | .typeDecl d => d.name
  | .package n => n
  | .label l => l.name

/-- ast.go: `ObjectType()` of each Object implementation. -/
def Object.objectType : Object → Nat
  | .var _ => OBJECT_VAR
  | .typeDecl _ => OBJECT_TYPE
  | .package _ => OBJECT_PACKAGE
  | .label _ => OBJECT_LABEL

/-- One lexical scope: Go's `map[string]Object`, as an association list
read through `List.lookup` (the most recent binding for a name wins,
matching map overwrite). -/
abbrev Scope := List (String × Object)

/-- The stack of scopes.  Index 0 is the outermost scope (Go slice order);
`pushScope` appends at the end. -/
abbrev IdentStack := List Scope

def IdentStack.pushScope (is : IdentStack) : IdentStack :=
  is ++ [[]]

/-- `(*is)[:len(*is)-1]`.  (On an empty stack Go panics; `dropLast`
of `[]` is `[]`, but no claim exercises that case.) -/
def IdentStack.popScope (is : IdentStack) : IdentStack :=
  is.dropLast

/-- `(*is)[len(*is)-1][v.Name()] = v`: bind the object's name in the
innermost scope.  (On an empty stack Go panics; modelled as a no-op,
unreachable in the claims.) -/
def IdentStack.addObject (is : IdentStack) (v : Object) : IdentStack :=
  match is.getLast? with
  | none => is
  | some last => is.dropLast ++ [(v.name, v) :: last]

def IdentStack.eraseAllExceptBuiltins (is : IdentStack) : IdentStack :=
  is.take 1

/-- The scope-scanning loop of `findObject`, over a list ordered
innermost-first (the Go loop runs `i = len-1` down to `0`, i.e. over the
reversed stack). -/
def lookupScopes : List Scope → String → Option Object
  | [], _ => none
  | s :: rest, n =>
    match s.lookup n with
    | some v => some v
    | none => lookupScopes rest n

/-- The unnamed source file: `findObject`.  NOTE the order in the source:
the builtin-type table is consulted FIRST, and only then are the scopes
scanned innermost-to-outermost. -/
def IdentStack.findObject (is : IdentStack) (name : String) : Option Object :=
  match GetBuiltinType name with
  | some decl => some (.typeDecl decl)
  | none => lookupScopes is.reverse name

/-- The scope-scanning loop of `findTypeDecl`: a binding whose object is
not a type declaration (`ObjectType() ≠ OBJECT_TYPE`) does not stop the
scan — the loop continues outward. -/
def lookupScopesTypeDecl : List Scope → String → Option TypeDecl
  | [], _ => none
  | s :: rest, n =>
    match s.lookup n with
    | some (.typeDecl d) => some d
    | _ => lookupScopesTypeDecl rest n

/-- The unnamed source file: `findTypeDecl`.  As in `findObject`, the
builtin-type table is consulted first. -/
def IdentStack.findTypeDecl (is : IdentStack) (name : String) : Option TypeDecl :=
  match GetBuiltinType name with
  | some decl => some decl
  | none => lookupScopesTypeDecl is.reverse name

/-! ### Code blocks and labels (ast.go: `CodeBlock`, `AddLabel`). -/

/-- ast.go: `CodeBlock`'s `Labels` map (`map[string]*LabelStmt`), as an
association list.  The `Statements` slice is omitted: `AddLabel` neither
reads nor writes it. -/
structure CodeBlock where
  Labels : List (String × LabelStmt)

/-- ast.go: `AddLabel` — error when the label's name is already present,
otherwise insert it.  The pair returns the Go `error` (none on success)
together with the updated block (Go mutates the receiver; on the error
path it returns before mutating). -/
def CodeBlock.addLabel (cb : CodeBlock) (l : LabelStmt) : Option String × CodeBlock :=
  match cb.Labels.lookup l.name with
  | some _ => (some ("Label `" ++ l.name ++ "` declared more than once"), cb)
  | none => (none, { cb with Labels := (l.name, l) :: cb.Labels })

/-! ### Top-level statements and the topological sort.

`topoSort` and the internals of `TopLevelStmt` are not part of the
provided sources — only their test (`package_test.go`) and the spec
describe them — so they are modelled from the spec (§3, §4.3). -/

/-- Modelled from the spec: a `TopLevelStmt` carries the set of names the
statement declares (`Decls()`) and the set of free identifier names it
references but does not itself declare (the keys of `unboundIdents`, as
populated by `loadDeps`).  The wrapped AST statement itself plays no role
in the sort. -/
structure TopLevelStmt where
  decls : List String
  deps : List String

/-- Modelled from the spec (§4.3 edge rule): statement A depends on
statement B iff some name in A's unbound set appears in B's declared
set. -/
def dependsOn (a b : TopLevelStmt) : Bool :=
  a.deps.any (fun n => b.decls.contains n)

/-- A pending statement is available when every unemitted statement it
depends on is itself: declaring and using one name inside a single
statement never creates a self-edge (spec §4.3 edge cases), which the
index comparison `q.1 == p.1` realises.  Names no pending statement
declares do not block. -/
def availableB (pending : List (Nat × TopLevelStmt)) (p : Nat × TopLevelStmt) : Bool :=
  pending.all (fun q => q.1 == p.1 || !(dependsOn p.2 q.2))

/-- First available pending statement in original input order (spec §4.3:
ties among simultaneously available statements break by original relative
input order), together with the remaining pending statements. -/
def pickAvail (all : List (Nat × TopLevelStmt)) :
    List (Nat × TopLevelStmt) → Option ((Nat × TopLevelStmt) × List (Nat × TopLevelStmt))
  | [] => none
  | x :: xs =>
    if availableB all x then some (x, xs)
    else
      match pickAvail all xs with
      | some (y, ys) => some (y, x :: ys)
      | none => none

/-- Modelled from the spec (§4.3): Kahn-style sort — repeatedly emit the
first available statement; when none is available but statements remain,
the remainder contains a cycle and the sort fails without returning a
partial order.  The fuel argument only bounds the recursion; it is always
called with `fuel = pending.length` and one statement is emitted per step,
so the fuel never runs out before the pending list empties. -/
def topoSortAux : Nat → List (Nat × TopLevelStmt) → Except String (List (Nat × TopLevelStmt))
  | _, [] => .ok []
  | 0, _ :: _ => .error "dependency cycle"
  | fuel + 1, x :: xs =>
    match pickAvail (x :: xs) (x :: xs) with
    | some (p, rest) =>
      match topoSortAux fuel rest with
      | .ok out => .ok (p :: out)
      | .error e => .error e
    | none => .error "dependency cycle"

/-- The sort on index-tagged statements. -/
def topoSortI (l : List (Nat × TopLevelStmt)) : Except String (List (Nat × TopLevelStmt)) :=
  topoSortAux l.length l

/-- Modelled from the spec: `topoSort` — tag the input statements with
their input positions, run the Kahn loop, and strip the tags. -/
def topoSort (input : List TopLevelStmt) : Except String (List TopLevelStmt) :=
  (topoSortI input.enum).map (List.map Prod.snd)

/-- The declare/depend edge between input positions: position `i` depends
on position `j` (`j` must be emitted first). -/
def depEdge (input : List TopLevelStmt) (i j : Nat) : Prop :=
  i ≠ j ∧ ∃ si sj, input.get? i = some si ∧ input.get? j = some sj ∧ dependsOn si sj = true

/-- Executable form of `depEdge`. -/
def depEdgeB (input : List TopLevelStmt) (i j : Nat) : Bool :=
  (!(i == j)) &&
    (match input.get? i, input.get? j with
     | some si, some sj => dependsOn si sj
     | _, _ => false)

/-- The declare/depend edges of the input are acyclic: no input position
depends on itself through one or more edges. -/
def Acyclic (input : List TopLevelStmt) : Prop :=
  ∀ i, ¬ Relation.TransGen (depEdge input) i i

/-! ## Theorems -/

/-! ### Helper lemmas -/

theorem known_kind_ne_unknown (T : Typ) (h : T.known = true) :
    (T.kind == KIND_UNKNOWN) = false := by
  cases T <;>
    simp_all [Typ.known, Typ.kind, KIND_SIMPLE, KIND_ARRAY, KIND_SLICE, KIND_MAP,
      KIND_POINTER, KIND_TUPLE, KIND_STRUCT, KIND_FUNC, KIND_CUSTOM, KIND_UNKNOWN]

theorem lookupScopes_append_none (l1 l2 : List Scope) (n : String)
    (h : ∀ s ∈ l1, s.lookup n = none) :
    lookupScopes (l1 ++ l2) n = lookupScopes l2 n := by
  induction l1 with
  | nil => rfl
  | cons s rest ih =>
    have hs := h s (by simp)
    simp only [List.cons_append, lookupScopes, hs]
    exact ih (fun t ht => h t (by simp [ht]))

theorem lookupScopesTypeDecl_cons_skip (s : Scope) (rest : List Scope) (n : String)
    (h : ∀ o, s.lookup n = some o → o.objectType ≠ OBJECT_TYPE) :
    lookupScopesTypeDecl (s :: rest) n = lookupScopesTypeDecl rest n := by
  cases hs : s.lookup n with
  | none => simp [lookupScopesTypeDecl, hs]
  | some o =>
    cases o with
    | typeDecl d => exact absurd rfl (h _ hs)
    | var v => simp [lookupScopesTypeDecl, hs]
    | package p => simp [lookupScopesTypeDecl, hs]
    | label l => simp [lookupScopesTypeDecl, hs]

theorem lookupScopesTypeDecl_append_skip (l1 l2 : List Scope) (n : String)
    (h : ∀ s ∈ l1, ∀ o, s.lookup n = some o → o.objectType ≠ OBJECT_TYPE) :
    lookupScopesTypeDecl (l1 ++ l2) n = lookupScopesTypeDecl l2 n := by
  induction l1 with
  | nil => rfl
  | cons s rest ih =>
    rw [List.cons_append, lookupScopesTypeDecl_cons_skip s _ n (h s (by simp))]
    exact ih (fun t ht => h t (by simp [ht]))

/-! ### C2 -/

/-- C2 counterexample: the claim says a Custom type whose underlying
structural type contains an Unknown is not Known, but `CustomType.Known()`
returns `true` unconditionally — a Custom aliasing the Unknown type is
reported Known even though an Unknown appears in its structure. -/
theorem known_custom_unknown_cex :
    (Typ.custom "T" "" (.mk "T" (some .unknown))).known = true ∧
    containsUnknownSpec (Typ.custom "T" "" (.mk "T" (some .unknown))) = true := by
  constructor
  · simp [Typ.known]
  · simp [containsUnknownSpec, containsUnknownSpecOpt]

/-- C2 amended: `Known()` returns true iff no Unknown appears in the
type's structure when the recursion stops at Custom (named alias) types —
composite types (array/slice/map/pointer/tuple/struct/func) are searched
recursively, but a Custom type is always Known, regardless of what its
underlying aliased type contains. -/
theorem known_eq_not_shallowUnknown (t : Typ) : t.known = !shallowUnknown t := by
  refine Typ.known.induct
    (motive_1 := fun t => t.known = !shallowUnknown t)
    (motive_2 := fun fs => knownFields fs = !shallowUnknownFields fs)
    (motive_3 := fun l => knownList l = !shallowUnknownList l)
    ?_ ?_ ?_ ?_ ?_ ?_ ?_ ?_ ?_ ?_ ?_ ?_ ?_ ?_ t
  all_goals
    intros
    simp_all [Typ.known, shallowUnknown, knownList, shallowUnknownList,
      knownFields, shallowUnknownFields, Bool.not_or]

/-! ### C6 -/

/-- C6: `AddLabel` errors iff a label with the same name is already in the
block's label map; on error the map is unchanged, and on success the map
afterwards maps the new label's name to it and agrees with the old map on
every other name. -/
theorem addLabel_spec (cb : CodeBlock) (l : LabelStmt) :
    ((cb.addLabel l).1 ≠ none ↔ cb.Labels.lookup l.name ≠ none) ∧
    (cb.Labels.lookup l.name ≠ none → (cb.addLabel l).2 = cb) ∧
    (cb.Labels.lookup l.name = none →
      (cb.addLabel l).1 = none ∧
      ∀ n, (cb.addLabel l).2.Labels.lookup n =
        if n = l.name then some l else cb.Labels.lookup n) := by
  refine ⟨?_, ?_, ?_⟩
  · cases h : cb.Labels.lookup l.name <;> simp [CodeBlock.addLabel, h]
  · intro hc
    cases h : cb.Labels.lookup l.name with
    | none => exact absurd h hc
    | some s => simp [CodeBlock.addLabel, h]
  · intro hc
    refine ⟨by simp [CodeBlock.addLabel, hc], ?_⟩
    intro n
    by_cases hn : n = l.name
    · have hb : (n == l.name) = true := by simp [hn]
      simp [CodeBlock.addLabel, hc, hn, List.lookup, hb]
    · have hb : (n == l.name) = false := by simp [hn]
      simp [CodeBlock.addLabel, hc, hn, List.lookup, hb]

/-- C6 witness. -/
theorem addLabel_spec_witness :
    ((CodeBlock.mk [("x", ⟨"x"⟩)]).addLabel ⟨"y"⟩).1 = none ∧
    ((CodeBlock.mk [("x", ⟨"x"⟩)]).addLabel ⟨"y"⟩).2.Labels.lookup "y" = some ⟨"y"⟩ ∧
    ((CodeBlock.mk [("x", ⟨"x"⟩)]).addLabel ⟨"y"⟩).2.Labels.lookup "x" = some ⟨"x"⟩ ∧
    ((CodeBlock.mk [("x", ⟨"x"⟩)]).addLabel ⟨"x"⟩).2 = CodeBlock.mk [("x", ⟨"x"⟩)] := by
  have h := (addLabel_spec (CodeBlock.mk [("x", ⟨"x"⟩)]) ⟨"y"⟩).2.2 (by rfl)
  have h2 := (addLabel_spec (CodeBlock.mk [("x", ⟨"x"⟩)]) ⟨"x"⟩).2.1 (by simp [List.lookup])
  refine ⟨h.1, ?_, ?_, h2⟩
  · rw [h.2 "y"]; simp
  · rw [h.2 "x"]; simp [List.lookup]

/-! ### C7 -/

/-- C7: for a `CustomType` whose alias chain (following `Decl.AliasedType`
through intermediate Custom types) reaches a structural type — in this
embedding every chain is finite and acyclic by construction, and `chainOk`
states that no nil `AliasedType` is hit — `RootType` returns the first
non-Custom type of the chain, whose `Kind` is never `KIND_CUSTOM`. -/
theorem rootType_of_chainOk (Name Package : String) (d : TypeDecl)
    (h : chainOk d.aliasedType = true) :
    ∃ r, (Typ.custom Name Package d).rootType = some r ∧ r.kind ≠ KIND_CUSTOM := by
  obtain ⟨nm, a⟩ := d
  have main : ∀ o : Option Typ, chainOk o = true →
      ∃ r, rootTypeFrom o = some r ∧ r.kind ≠ KIND_CUSTOM := by
    intro o
    induction o using chainOk.induct with
    | case1 => intro hh; simp [chainOk] at hh
    | case2 N P n a ih =>
      intro hh
      rw [chainOk] at hh
      rw [rootTypeFrom]
      exact ih hh
    | case3 t hne =>
      intro hh
      have heq : rootTypeFrom (some t) = some t := by
        cases t
        case custom N P dd =>
          obtain ⟨n2, a2⟩ := dd
          exact absurd rfl (hne N P n2 a2)
        all_goals simp [rootTypeFrom]
      have hk : t.kind ≠ KIND_CUSTOM := by
        cases t
        case custom N P dd =>
          obtain ⟨n2, a2⟩ := dd
          exact absurd rfl (hne N P n2 a2)
        all_goals
          simp [Typ.kind, KIND_SIMPLE, KIND_ARRAY, KIND_SLICE, KIND_MAP, KIND_POINTER,
            KIND_TUPLE, KIND_STRUCT, KIND_FUNC, KIND_UNKNOWN, KIND_CUSTOM]
      exact ⟨t, heq, hk⟩
  have hh : chainOk a = true := h
  obtain ⟨r, hr, hk⟩ := main a hh
  exact ⟨r, by rw [Typ.rootType]; exact hr, hk⟩

/-- C7 witness: a two-link alias chain ending in a simple type. -/
theorem rootType_of_chainOk_witness :
    chainOk (TypeDecl.mk "MyInt"
      (some (.custom "MyInt0" "" (.mk "MyInt0" (some (.simple SIMPLE_TYPE_INT)))))).aliasedType = true ∧
    ∃ r, (Typ.custom "MyInt" ""
      (.mk "MyInt" (some (.custom "MyInt0" "" (.mk "MyInt0" (some (.simple SIMPLE_TYPE_INT))))))).rootType
        = some r ∧ r.kind ≠ KIND_CUSTOM := by
  have h : chainOk (TypeDecl.mk "MyInt"
      (some (.custom "MyInt0" "" (.mk "MyInt0" (some (.simple SIMPLE_TYPE_INT)))))).aliasedType = true := by
    simp [TypeDecl.aliasedType, chainOk]
  exact ⟨h, rootType_of_chainOk "MyInt" "" _ h⟩

/-! ### C8 -/

/-- C8: for every Known type `T`, negotiation of Unknown with `T` (in
either order) succeeds and returns `T`: the Known side wins. -/
theorem negotiate_unknown_spec (T : Typ) (h : T.known = true) :
    negotiate .unknown T = .ok T ∧ negotiate T .unknown = .ok T := by
  cases T
  case unknown => simp [Typ.known] at h
  all_goals exact ⟨rfl, rfl⟩

/-- C8 witness: `T = int`. -/
theorem negotiate_unknown_spec_witness :
    (Typ.simple SIMPLE_TYPE_INT).known = true ∧
    negotiate .unknown (.simple SIMPLE_TYPE_INT) = .ok (.simple SIMPLE_TYPE_INT) ∧
    negotiate (.simple SIMPLE_TYPE_INT) .unknown = .ok (.simple SIMPLE_TYPE_INT) := by
  have h : (Typ.simple SIMPLE_TYPE_INT).known = true := by simp [Typ.known]
  exact ⟨h, (negotiate_unknown_spec _ h).1, (negotiate_unknown_spec _ h).2⟩

/-! ### C9 -/

/-- C9: `TypeDecl.Type()` returns a SimpleType carrying the id registered
for the declaration's name when `AliasedType` is nil, and otherwise a
CustomType whose name is the declaration's and whose `Decl` is the same
declaration; every builtin type declaration has nil `AliasedType` and so
denotes a Simple type, never a Custom alias. -/
theorem typeDecl_type_spec :
    (∀ d : TypeDecl, d.aliasedType = none → d.typ = .simple (simpleTypeStrToID d.name)) ∧
    (∀ (d : TypeDecl) (a : Typ), d.aliasedType = some a → d.typ = .custom d.name "" d) ∧
    (∀ (n : String) (td : TypeDecl), GetBuiltinType n = some td →
      td.aliasedType = none ∧ (td.typ).kind = KIND_SIMPLE) := by
  refine ⟨?_, ?_, ?_⟩
  · intro d h
    obtain ⟨nm, a⟩ := d
    cases a with
    | none => simp [TypeDecl.typ, TypeDecl.name]
    | some t => exact absurd h (by simp [TypeDecl.aliasedType])
  · intro d a h
    obtain ⟨nm, a0⟩ := d
    cases a0 with
    | none => exact absurd h (by simp [TypeDecl.aliasedType])
    | some t => simp [TypeDecl.typ, TypeDecl.name]
  · intro n td h
    rw [GetBuiltinType, builtinTypes] at h
    split at h
    · cases h
      exact ⟨rfl, by simp [TypeDecl.typ, Typ.kind]⟩
    · cases h

/-- C9 witness: an unaliased declaration, an aliased declaration, and the
builtin `bool`. -/
theorem typeDecl_type_spec_witness :
    (TypeDecl.mk "byte" none).typ = .simple (simpleTypeStrToID "byte") ∧
    (TypeDecl.mk "T" (some .unknown)).typ = .custom "T" "" (.mk "T" (some .unknown)) ∧
    ((TypeDecl.mk "bool" none).aliasedType = none ∧ ((TypeDecl.mk "bool" none).typ).kind = KIND_SIMPLE) := by
  refine ⟨?_, ?_, typeDecl_type_spec.2.2 "bool" _ rfl⟩
  · have := typeDecl_type_spec.1 (TypeDecl.mk "byte" none) rfl
    simpa [TypeDecl.name] using this
  · have := typeDecl_type_spec.2.1 (TypeDecl.mk "T" (some .unknown)) .unknown rfl
    simpa [TypeDecl.name] using this

/-! ### Helper lemmas for the topological sort -/

theorem pickAvail_some (all l : List (Nat × TopLevelStmt)) (p : Nat × TopLevelStmt)
    (rest : List (Nat × TopLevelStmt)) (h : pickAvail all l = some (p, rest)) :
    l.Perm (p :: rest) ∧ availableB all p = true := by
  induction l generalizing p rest with
  | nil => simp [pickAvail] at h
  | cons x xs ih =>
    rw [pickAvail] at h
    by_cases hx : availableB all x = true
    · rw [if_pos hx] at h
      obtain ⟨rfl, rfl⟩ : x = p ∧ xs = rest := by
        constructor <;> (cases h; rfl)
      exact ⟨List.Perm.refl _, hx⟩
    · rw [if_neg hx] at h
      cases hrec : pickAvail all xs with
      | none => rw [hrec] at h; cases h
      | some pr =>
        obtain ⟨y, ys⟩ := pr
        rw [hrec] at h
        obtain ⟨rfl, rfl⟩ : y = p ∧ x :: ys = rest := by
          constructor <;> (cases h; rfl)
        obtain ⟨hperm, hav⟩ := ih y ys hrec
        exact ⟨(hperm.cons x).trans (List.Perm.swap y x ys), hav⟩

theorem pickAvail_eq_none (all l : List (Nat × TopLevelStmt))
    (h : pickAvail all l = none) : ∀ x ∈ l, availableB all x = false := by
  induction l with
  | nil => simp
  | cons x xs ih =>
    rw [pickAvail] at h
    by_cases hx : availableB all x = true
    · rw [if_pos hx] at h; cases h
    · rw [if_neg hx] at h
      cases hrec : pickAvail all xs with
      | some pr => obtain ⟨y, ys⟩ := pr; rw [hrec] at h; cases h
      | none =>
        intro z hz
        rcases List.mem_cons.mp hz with rfl | hz'
        · exact Bool.eq_false_iff.mpr hx
        · exact ih hrec z hz'

theorem depEdgeB_iff (input : List TopLevelStmt) (i j : Nat) :
    depEdgeB input i j = true ↔ depEdge input i j := by
  rw [depEdgeB, depEdge]
  constructor
  · intro h
    rw [Bool.and_eq_true] at h
    obtain ⟨h1, h2⟩ := h
    have hij : i ≠ j := by simpa using h1
    cases hgi : input.get? i with
    | none => rw [hgi] at h2; simp at h2
    | some si =>
      cases hgj : input.get? j with
      | none => rw [hgi, hgj] at h2; simp at h2
      | some sj =>
        rw [hgi, hgj] at h2
        exact ⟨hij, si, sj, rfl, rfl, h2⟩
  · rintro ⟨hij, si, sj, hgi, hgj, hdep⟩
    rw [hgi, hgj]
    simp [hij, hdep]

theorem acyclic_of_rank (input : List TopLevelStmt) (f : Nat → Nat)
    (h : ∀ i, i < input.length → ∀ j, j < input.length →
      depEdgeB input i j = true → f j < f i) :
    Acyclic input := by
  have hstep : ∀ i j, depEdge input i j → f j < f i := by
    intro i j he
    obtain ⟨hij, si, sj, hgi, hgj, hdep⟩ := he
    have hi : i < input.length := by
      rcases List.get?_eq_some.mp hgi with ⟨hl, _⟩; exact hl
    have hj : j < input.length := by
      rcases List.get?_eq_some.mp hgj with ⟨hl, _⟩; exact hl
    exact h i hi j hj ((depEdgeB_iff input i j).mpr ⟨hij, si, sj, hgi, hgj, hdep⟩)
  intro i hcyc
  have hdec : ∀ a b, Relation.TransGen (depEdge input) a b → f b < f a := by
    intro a b hab
    induction hab with
    | single hs => exact hstep _ _ hs
    | tail _ hbc ih => exact lt_trans (hstep _ _ hbc) ih
  exact lt_irrefl (f i) (hdec i i hcyc)

theorem topoSortAux_ok_spec :
    ∀ (n : Nat) (l out : List (Nat × TopLevelStmt)), l.length ≤ n →
      (l.map Prod.fst).Nodup → topoSortAux n l = .ok out →
      out.Perm l ∧
      ∀ a ∈ out, ∀ b ∈ out, a.1 ≠ b.1 → dependsOn a.2 b.2 = true →
        out.findIdx (fun q => q.1 == b.1) < out.findIdx (fun q => q.1 == a.1) := by
  intro n
  induction n with
  | zero =>
    intro l out hlen hnd h
    have hl : l = [] := List.eq_nil_of_length_eq_zero (Nat.le_zero.mp hlen)
    subst hl
    rw [topoSortAux] at h
    cases h
    exact ⟨List.Perm.refl _, by intro a ha; simp at ha⟩
  | succ m ih =>
    intro l out hlen hnd h
    cases l with
    | nil =>
      rw [topoSortAux] at h
      cases h
      exact ⟨List.Perm.refl _, by intro a ha; simp at ha⟩
    | cons x xs =>
      rw [topoSortAux] at h
      cases hpick : pickAvail (x :: xs) (x :: xs) with
      | none => simp only [hpick] at h; simp at h
      | some pr =>
        obtain ⟨p, rest⟩ := pr
        simp only [hpick] at h
        cases hrec : topoSortAux m rest with
        | error e => simp only [hrec] at h; simp at h
        | ok out' =>
          simp only [hrec, Except.ok.injEq] at h
          subst h
          obtain ⟨hperm, havail⟩ := pickAvail_some _ _ _ _ hpick
          have hlen' : rest.length ≤ m := by
            have hle := hperm.length_eq
            simp only [List.length_cons] at hle hlen
            omega
          have hnd2 : ((p :: rest).map Prod.fst).Nodup := (hperm.map Prod.fst).nodup_iff.mp hnd
          have hndrest : (rest.map Prod.fst).Nodup := (List.nodup_cons.mp hnd2).2
          have hpnotin : p.1 ∉ rest.map Prod.fst := (List.nodup_cons.mp hnd2).1
          obtain ⟨hperm', hord'⟩ := ih rest out' hlen' hndrest hrec
          have hpout : p.1 ∉ out'.map Prod.fst :=
            fun hmem => hpnotin ((hperm'.map Prod.fst).mem_iff.mp hmem)
          have havail' : ∀ q ∈ x :: xs, q.1 = p.1 ∨ dependsOn p.2 q.2 = false := by
            intro q hq
            rw [availableB] at havail
            have hq2 := List.all_eq_true.mp havail q hq
            simp only [Bool.or_eq_true, beq_iff_eq, Bool.not_eq_true'] at hq2
            exact hq2
          refine ⟨(hperm'.cons p).trans hperm.symm, ?_⟩
          intro a ha b hb hne hdep
          rcases List.mem_cons.mp ha with heqa | ha'
          · subst heqa
            rcases List.mem_cons.mp hb with heqb | hb'
            · subst heqb
              exact absurd rfl hne
            · have hbxs : b ∈ x :: xs :=
                hperm.mem_iff.mpr (List.mem_cons_of_mem _ (hperm'.mem_iff.mp hb'))
              rcases havail' b hbxs with h1 | h2
              · exact absurd h1.symm hne
              · rw [hdep] at h2
                cases h2
          · rcases List.mem_cons.mp hb with heqb | hb'
            · subst heqb
              have h1 : (b.1 == b.1) = true := beq_self_eq_true _
              have ha1 : a.1 ≠ b.1 :=
                fun he => hpout (he ▸ List.mem_map_of_mem Prod.fst ha')
              have h2 : (b.1 == a.1) = false := beq_eq_false_iff_ne.mpr (Ne.symm ha1)
              rw [List.findIdx_cons, List.findIdx_cons]
              simp only [h1, h2, cond_true, cond_false]
              exact Nat.succ_pos _
            · have ha1 : a.1 ≠ p.1 :=
                fun he => hpout (he ▸ List.mem_map_of_mem Prod.fst ha')
              have hb1 : b.1 ≠ p.1 :=
                fun he => hpout (he ▸ List.mem_map_of_mem Prod.fst hb')
              have h2 : (p.1 == a.1) = false := beq_eq_false_iff_ne.mpr (Ne.symm ha1)
              have h3 : (p.1 == b.1) = false := beq_eq_false_iff_ne.mpr (Ne.symm hb1)
              rw [List.findIdx_cons, List.findIdx_cons]
              simp only [h2, h3, cond_false]
              exact Nat.succ_lt_succ (hord' a ha' b hb' hne hdep)

theorem exists_available (input : List TopLevelStmt) (hA : Acyclic input)
    (l : List (Nat × TopLevelStmt)) (hne : l ≠ [])
    (hE : ∀ p ∈ l, input.get? p.1 = some p.2) :
    ∃ p ∈ l, availableB l p = true := by
  classical
  set T : Finset Nat := (l.map Prod.fst).toFinset with hT
  obtain ⟨x0, hx0⟩ := List.exists_mem_of_ne_nil l hne
  have hx0T : x0.1 ∈ T := List.mem_toFinset.mpr (List.mem_map_of_mem Prod.fst hx0)
  have hlift : ∀ {x y : {i // i ∈ T}},
      Relation.TransGen (fun x y : {i // i ∈ T} => depEdge input y.val x.val) x y →
      Relation.TransGen (fun a b : Nat => depEdge input b a) x.val y.val := by
    intro x y hxy
    induction hxy with
    | single h => exact Relation.TransGen.single h
    | tail _ h ih => exact Relation.TransGen.tail ih h
  haveI : IsTrans {i // i ∈ T}
      (Relation.TransGen (fun x y : {i // i ∈ T} => depEdge input y.val x.val)) :=
    ⟨fun _ _ _ h1 h2 => h1.trans h2⟩
  haveI : IsIrrefl {i // i ∈ T}
      (Relation.TransGen (fun x y : {i // i ∈ T} => depEdge input y.val x.val)) := by
    constructor
    intro x hx
    exact hA x.val (Relation.transGen_swap.mp (hlift hx))
  have hwf : WellFounded
      (Relation.TransGen (fun x y : {i // i ∈ T} => depEdge input y.val x.val)) :=
    Finite.wellFounded_of_trans_of_irrefl _
  obtain ⟨m, -, hmin⟩ := hwf.has_min Set.univ ⟨⟨x0.1, hx0T⟩, Set.mem_univ _⟩
  have hm : m.val ∈ l.map Prod.fst := List.mem_toFinset.mp m.2
  obtain ⟨pm, hpml, hpm1⟩ := List.mem_map.mp hm
  refine ⟨pm, hpml, ?_⟩
  rw [availableB, List.all_eq_true]
  intro q hq
  by_cases hq1 : q.1 = pm.1
  · simp [hq1]
  · have hq1' : (q.1 == pm.1) = false := beq_eq_false_iff_ne.mpr hq1
    rw [hq1', Bool.false_or]
    cases hd : dependsOn pm.2 q.2 with
    | false => rfl
    | true =>
      exfalso
      have hedge : depEdge input pm.1 q.1 :=
        ⟨fun he => hq1 he.symm, pm.2, q.2, hE pm hpml, hE q hq, hd⟩
      have hqT : q.1 ∈ T := List.mem_toFinset.mpr (List.mem_map_of_mem Prod.fst hq)
      exact hmin ⟨q.1, hqT⟩ (Set.mem_univ _)
        (Relation.TransGen.single (show depEdge input m.val q.1 from hpm1 ▸ hedge))

theorem topoSortAux_ok_of_acyclic (input : List TopLevelStmt) (hA : Acyclic input) :
    ∀ (n : Nat) (l : List (Nat × TopLevelStmt)), l.length ≤ n →
      (∀ p ∈ l, input.get? p.1 = some p.2) →
      ∃ out, topoSortAux n l = .ok out := by
  intro n
  induction n with
  | zero =>
    intro l hlen hE
    have hl : l = [] := List.eq_nil_of_length_eq_zero (Nat.le_zero.mp hlen)
    subst hl
    exact ⟨[], by rw [topoSortAux]⟩
  | succ m ih =>
    intro l hlen hE
    cases l with
    | nil => exact ⟨[], by rw [topoSortAux]⟩
    | cons x xs =>
      obtain ⟨p0, hp0, hav⟩ := exists_available input hA (x :: xs) (by simp) hE
      have hps : ∃ pr, pickAvail (x :: xs) (x :: xs) = some pr := by
        cases hp : pickAvail (x :: xs) (x :: xs) with
        | some pr => exact ⟨pr, rfl⟩
        | none =>
          have hfalse := pickAvail_eq_none _ _ hp p0 hp0
          rw [hav] at hfalse
          cases hfalse
      obtain ⟨⟨p, rest⟩, hpick⟩ := hps
      obtain ⟨hperm, -⟩ := pickAvail_some _ _ _ _ hpick
      have hlen' : rest.length ≤ m := by
        have hle := hperm.length_eq
        simp only [List.length_cons] at hle hlen
        omega
      have hE' : ∀ q ∈ rest, input.get? q.1 = some q.2 :=
        fun q hq => hE q (hperm.mem_iff.mpr (List.mem_cons_of_mem _ hq))
      obtain ⟨out', hout'⟩ := ih rest hlen' hE'
      exact ⟨p :: out', by rw [topoSortAux]; simp only [hpick, hout']⟩

/-! ### C1 -/

/-- C1 counterexample: the claim says a scope binding wins over a builtin
type of the same name (builtins consulted only last), but `findObject`
consults the builtin table FIRST — with `"int"` bound to a variable in the
stack, `findObject` still returns the builtin `int` type declaration, not
the bound variable. -/
theorem findObject_builtin_first_cex :
    IdentStack.findObject [[("int", Object.var ⟨"int", .simple SIMPLE_TYPE_INT⟩)]] "int"
      = some (Object.typeDecl (.mk "int" none)) ∧
    Object.typeDecl (.mk "int" none) ≠ Object.var ⟨"int", .simple SIMPLE_TYPE_INT⟩ := by
  exact ⟨rfl, fun h => Object.noConfusion h⟩

/-- C1 amended: `findObject` consults the builtin-type table FIRST — a
builtin name always resolves to its builtin type declaration regardless of
scope bindings; a non-builtin name resolves to the binding of the
innermost scope that binds it, scanning innermost-to-outermost; a
non-builtin name bound in no scope resolves to nil. -/
theorem findObject_spec :
    (∀ (is : IdentStack) (n : String) (d : TypeDecl),
      GetBuiltinType n = some d → is.findObject n = some (.typeDecl d)) ∧
    (∀ (is : IdentStack) (n : String) (outer : List Scope) (s : Scope)
        (inner : List Scope) (v : Object),
      GetBuiltinType n = none → is = outer ++ s :: inner → s.lookup n = some v →
      (∀ t ∈ inner, t.lookup n = none) → is.findObject n = some v) ∧
    (∀ (is : IdentStack) (n : String),
      GetBuiltinType n = none → (∀ s ∈ is, s.lookup n = none) → is.findObject n = none) := by
  refine ⟨?_, ?_, ?_⟩
  · intro is n d h
    simp [IdentStack.findObject, h]
  · intro is n outer s inner v hb heq hs hinner
    subst heq
    simp only [IdentStack.findObject, hb, List.reverse_append, List.reverse_cons,
      List.append_assoc, List.singleton_append]
    rw [lookupScopes_append_none inner.reverse _ n
      (fun t ht => hinner t (List.mem_reverse.mp ht))]
    simp [lookupScopes, hs]
  · intro is n hb h
    simp only [IdentStack.findObject, hb]
    have hall : ∀ s ∈ is.reverse, s.lookup n = none :=
      fun s hs => h s (List.mem_reverse.mp hs)
    have := lookupScopes_append_none is.reverse [] n hall
    simpa using this

/-- C1 amended witness. -/
theorem findObject_spec_witness :
    IdentStack.findObject [] "int" = some (.typeDecl (.mk "int" none)) ∧
    IdentStack.findObject [[("x", Object.package "p")]] "x" = some (Object.package "p") ∧
    IdentStack.findObject [] "x" = none := by
  refine ⟨findObject_spec.1 [] "int" _ rfl, ?_, findObject_spec.2.2 [] "x" rfl ?_⟩
  · exact findObject_spec.2.1 [[("x", Object.package "p")]] "x" [] [("x", Object.package "p")] []
      (Object.package "p") rfl rfl rfl (by simp)
  · simp

/-! ### C5 -/

/-- C5 counterexample: the claim quantifies over every name, but for a
builtin name shadowing fails — after pushing a scope and binding `"int"`
to a fresh object, `findObject` still returns the builtin `int` type
declaration, not the inner object. -/
theorem shadowing_builtin_cex :
    IdentStack.findObject
      ((IdentStack.pushScope [[("int", Object.var ⟨"int", .simple SIMPLE_TYPE_INT⟩)]]).addObject
        (Object.var ⟨"int", .simple SIMPLE_TYPE_BOOL⟩)) "int"
      = some (Object.typeDecl (.mk "int" none)) ∧
    Object.typeDecl (.mk "int" none) ≠ Object.var ⟨"int", .simple SIMPLE_TYPE_BOOL⟩ := by
  exact ⟨rfl, fun h => Object.noConfusion h⟩

/-- C5 amended: for a name with no builtin-table entry, pushing a scope
and binding an object with that name shadows the outer binding — lookup
returns the inner object — and popping the pushed scope restores the outer
object. -/
theorem shadowing_spec (is : IdentStack) (n : String) (o outerObj : Object)
    (hb : GetBuiltinType n = none) (hname : o.name = n)
    (houter : is.findObject n = some outerObj) :
    (is.pushScope.addObject o).findObject n = some o ∧
    (is.pushScope.addObject o).popScope.findObject n = some outerObj := by
  have hstack : is.pushScope.addObject o = is ++ [[(o.name, o)]] := by
    simp [IdentStack.addObject, IdentStack.pushScope, List.getLast?_concat, List.dropLast_concat]
  constructor
  · rw [hstack]
    simp only [IdentStack.findObject, hb, List.reverse_append]
    simp [lookupScopes, List.lookup, hname]
  · have hpop : (is.pushScope.addObject o).popScope = is := by
      rw [hstack, IdentStack.popScope, List.dropLast_concat]
    rw [hpop]
    exact houter

/-- C5 amended witness. -/
theorem shadowing_spec_witness :
    GetBuiltinType "y" = none ∧
    IdentStack.findObject [[("y", Object.package "y")]] "y" = some (Object.package "y") ∧
    ((IdentStack.pushScope [[("y", Object.package "y")]]).addObject
      (Object.label ⟨"y"⟩)).findObject "y" = some (Object.label ⟨"y"⟩) ∧
    ((IdentStack.pushScope [[("y", Object.package "y")]]).addObject
      (Object.label ⟨"y"⟩)).popScope.findObject "y" = some (Object.package "y") := by
  have h := shadowing_spec [[("y", Object.package "y")]] "y" (Object.label ⟨"y"⟩)
    (Object.package "y") rfl rfl rfl
  exact ⟨rfl, rfl, h.1, h.2⟩

/-! ### C10 -/

/-- C10 counterexample: the claim quantifies over every stack and name,
but for the builtin name `"int"` — inner scope binding it to a variable,
outer scope binding it to a user type declaration — `findTypeDecl` returns
the builtin declaration, not the outer `TypeDecl`, and `findObject`
returns the builtin object, not the inner variable. -/
theorem findTypeDecl_builtin_cex :
    IdentStack.findTypeDecl
      [[("int", Object.typeDecl (.mk "int" (some (.simple SIMPLE_TYPE_STRING))))],
       [("int", Object.var ⟨"int", .simple SIMPLE_TYPE_INT⟩)]] "int"
      = some (.mk "int" none) ∧
    TypeDecl.mk "int" none ≠ TypeDecl.mk "int" (some (.simple SIMPLE_TYPE_STRING)) ∧
    IdentStack.findObject
      [[("int", Object.typeDecl (.mk "int" (some (.simple SIMPLE_TYPE_STRING))))],
       [("int", Object.var ⟨"int", .simple SIMPLE_TYPE_INT⟩)]] "int"
      = some (Object.typeDecl (.mk "int" none)) ∧
    Object.typeDecl (.mk "int" none) ≠ Object.var ⟨"int", .simple SIMPLE_TYPE_INT⟩ := by
  refine ⟨rfl, ?_, rfl, fun h => Object.noConfusion h⟩
  intro h
  injection h with h1 h2
  exact Option.noConfusion h2

/-- C10 amended: for a name with no builtin-table entry, `findTypeDecl`
skips bindings whose object is not a type declaration and continues
outward — with the name bound to a non-type object in an inner scope and
to a `TypeDecl` in an outer scope (and no type-declaration binding in
between), `findTypeDecl` returns the outer `TypeDecl` while `findObject`
returns the inner non-type object. -/
theorem findTypeDecl_spec (n : String) (a : List Scope) (sO : Scope) (b : List Scope)
    (sI : Scope) (c : List Scope) (d : TypeDecl) (v : Object)
    (hb : GetBuiltinType n = none)
    (hO : sO.lookup n = some (.typeDecl d))
    (hI : sI.lookup n = some v)
    (hv : v.objectType ≠ OBJECT_TYPE)
    (hbskip : ∀ t ∈ b, ∀ o, t.lookup n = some o → o.objectType ≠ OBJECT_TYPE)
    (hc : ∀ t ∈ c, t.lookup n = none) :
    IdentStack.findTypeDecl (a ++ sO :: b ++ sI :: c) n = some d ∧
    IdentStack.findObject (a ++ sO :: b ++ sI :: c) n = some v := by
  have hrev : (a ++ sO :: b ++ sI :: c).reverse
      = c.reverse ++ sI :: (b.reverse ++ sO :: a.reverse) := by simp
  constructor
  · simp only [IdentStack.findTypeDecl, hb]
    rw [hrev]
    rw [lookupScopesTypeDecl_append_skip c.reverse _ n
      (fun t ht o hlo => by rw [hc t (List.mem_reverse.mp ht)] at hlo; cases hlo)]
    rw [lookupScopesTypeDecl_cons_skip sI _ n
      (fun o ho => by rw [hI] at ho; cases ho; exact hv)]
    rw [lookupScopesTypeDecl_append_skip b.reverse _ n
      (fun t ht o hlo => hbskip t (List.mem_reverse.mp ht) o hlo)]
    simp [lookupScopesTypeDecl, hO]
  · simp only [IdentStack.findObject, hb]
    rw [hrev]
    rw [lookupScopes_append_none c.reverse _ n (fun t ht => hc t (List.mem_reverse.mp ht))]
    simp [lookupScopes, hI]

/-- C10 amended witness. -/
theorem findTypeDecl_spec_witness :
    IdentStack.findTypeDecl
      [[("t", Object.typeDecl (.mk "t" (some (.simple SIMPLE_TYPE_INT))))],
       [("t", Object.var ⟨"t", .simple SIMPLE_TYPE_INT⟩)]] "t"
      = some (.mk "t" (some (.simple SIMPLE_TYPE_INT))) ∧
    IdentStack.findObject
      [[("t", Object.typeDecl (.mk "t" (some (.simple SIMPLE_TYPE_INT))))],
       [("t", Object.var ⟨"t", .simple SIMPLE_TYPE_INT⟩)]] "t"
      = some (Object.var ⟨"t", .simple SIMPLE_TYPE_INT⟩) := by
  have h := findTypeDecl_spec "t" [] [("t", Object.typeDecl (.mk "t" (some (.simple SIMPLE_TYPE_INT))))]
    [] [("t", Object.var ⟨"t", .simple SIMPLE_TYPE_INT⟩)] []
    (.mk "t" (some (.simple SIMPLE_TYPE_INT))) (Object.var ⟨"t", .simple SIMPLE_TYPE_INT⟩)
    rfl rfl rfl (by simp [Object.objectType, OBJECT_VAR, OBJECT_TYPE]) (by simp) (by simp)
  exact ⟨h.1, h.2⟩

/-! ### C3 -/

/-- C3: for every input whose declare/depend edges are acyclic, `topoSort`
succeeds; the output (the tagged output with its tags stripped) is a
permutation of the input of equal length; and whenever statement `si` (at
input position `i`) depends on statement `sj` (at a different input
position `j`) — i.e. `si`'s unbound set meets `sj`'s declared set — the
declaring statement `j` is emitted strictly before `i`. -/
theorem topoSort_acyclic_spec (input : List TopLevelStmt) (hA : Acyclic input) :
    ∃ outI, topoSortI input.enum = .ok outI ∧
      topoSort input = .ok (outI.map Prod.snd) ∧
      (outI.map Prod.snd).Perm input ∧
      (outI.map Prod.snd).length = input.length ∧
      ∀ (i j : Nat) (si sj : TopLevelStmt),
        input.get? i = some si → input.get? j = some sj → i ≠ j →
        dependsOn si sj = true →
        outI.findIdx (fun q => q.1 == j) < outI.findIdx (fun q => q.1 == i) := by
  have hE : ∀ p ∈ input.enum, input.get? p.1 = some p.2 := by
    intro p hp
    rw [List.get?_eq_getElem?]
    exact List.mem_enum_iff_getElem?.mp hp
  have hnd : (input.enum.map Prod.fst).Nodup := by
    rw [List.enum_map_fst]
    exact List.nodup_range _
  obtain ⟨outI, houtI⟩ :=
    topoSortAux_ok_of_acyclic input hA input.enum.length input.enum le_rfl hE
  obtain ⟨hperm, hord⟩ :=
    topoSortAux_ok_spec input.enum.length input.enum outI le_rfl hnd houtI
  have hI : topoSortI input.enum = .ok outI := houtI
  refine ⟨outI, hI, ?_, ?_, ?_, ?_⟩
  · rw [topoSort, hI]
    rfl
  · have hm := hperm.map Prod.snd
    rwa [List.enum_map_snd] at hm
  · have hl := (hperm.map Prod.snd).length_eq
    rwa [List.enum_map_snd] at hl
  · intro i j si sj hgi hgj hne hdep
    have hmi : (i, si) ∈ outI := by
      apply hperm.mem_iff.mpr
      apply List.mk_mem_enum_iff_getElem?.mpr
      rw [← List.get?_eq_getElem?]
      exact hgi
    have hmj : (j, sj) ∈ outI := by
      apply hperm.mem_iff.mpr
      apply List.mk_mem_enum_iff_getElem?.mpr
      rw [← List.get?_eq_getElem?]
      exact hgj
    exact hord (i, si) hmi (j, sj) hmj hne hdep

/-- C3 witness: two statements, the second depending on the name the first
declares. -/
theorem topoSort_acyclic_spec_witness :
    Acyclic [TopLevelStmt.mk ["a"] [], TopLevelStmt.mk ["b"] ["a"]] ∧
    (∃ outI, topoSortI ([TopLevelStmt.mk ["a"] [], TopLevelStmt.mk ["b"] ["a"]]).enum = .ok outI ∧
      topoSort [TopLevelStmt.mk ["a"] [], TopLevelStmt.mk ["b"] ["a"]] = .ok (outI.map Prod.snd) ∧
      (outI.map Prod.snd).Perm [TopLevelStmt.mk ["a"] [], TopLevelStmt.mk ["b"] ["a"]] ∧
      (outI.map Prod.snd).length = ([TopLevelStmt.mk ["a"] [], TopLevelStmt.mk ["b"] ["a"]] : List TopLevelStmt).length ∧
      ∀ (i j : Nat) (si sj : TopLevelStmt),
        ([TopLevelStmt.mk ["a"] [], TopLevelStmt.mk ["b"] ["a"]] : List TopLevelStmt).get? i = some si →
        ([TopLevelStmt.mk ["a"] [], TopLevelStmt.mk ["b"] ["a"]] : List TopLevelStmt).get? j = some sj →
        i ≠ j → dependsOn si sj = true →
        outI.findIdx (fun q => q.1 == j) < outI.findIdx (fun q => q.1 == i)) := by
  have hA : Acyclic [TopLevelStmt.mk ["a"] [], TopLevelStmt.mk ["b"] ["a"]] :=
    acyclic_of_rank _ (fun i => i) (by decide)
  exact ⟨hA, topoSort_acyclic_spec _ hA⟩

/-! ### C4 -/

/-- C4: for every input whose declare/depend edges contain a cycle (direct
or indirect), `topoSort` returns an error; it never returns an ordering
(total or partial), since the `Except` result carries either an error or a
full ordering and the ordering case is impossible for cyclic input. -/
theorem topoSort_cyclic_error (input : List TopLevelStmt) (hC : ¬ Acyclic input) :
    ∃ e, topoSort input = .error e := by
  cases h : topoSortI input.enum with
  | error e =>
    exact ⟨e, by rw [topoSort, h]; rfl⟩
  | ok outI =>
    exfalso
    apply hC
    have hnd : (input.enum.map Prod.fst).Nodup := by
      rw [List.enum_map_fst]
      exact List.nodup_range _
    obtain ⟨hperm, hord⟩ :=
      topoSortAux_ok_spec input.enum.length input.enum outI le_rfl hnd h
    intro i hcyc
    have hstep : ∀ a b, depEdge input a b →
        outI.findIdx (fun q => q.1 == b) < outI.findIdx (fun q => q.1 == a) := by
      intro a b he
      obtain ⟨hab, sa, sb, hga, hgb, hdep⟩ := he
      have hma : (a, sa) ∈ outI := by
        apply hperm.mem_iff.mpr
        apply List.mk_mem_enum_iff_getElem?.mpr
        rw [← List.get?_eq_getElem?]
        exact hga
      have hmb : (b, sb) ∈ outI := by
        apply hperm.mem_iff.mpr
        apply List.mk_mem_enum_iff_getElem?.mpr
        rw [← List.get?_eq_getElem?]
        exact hgb
      exact hord (a, sa) hma (b, sb) hmb hab hdep
    have hdec : ∀ a b, Relation.TransGen (depEdge input) a b →
        outI.findIdx (fun q => q.1 == b) < outI.findIdx (fun q => q.1 == a) := by
      intro a b hab
      induction hab with
      | single hs => exact hstep _ _ hs
      | tail _ hbc ih => exact lt_trans (hstep _ _ hbc) ih
    exact lt_irrefl _ (hdec i i hcyc)

/-- C4 witness: a two-statement direct cycle (`a` needs `b`, `b` needs
`a`). -/
theorem topoSort_cyclic_error_witness :
    (¬ Acyclic [TopLevelStmt.mk ["a"] ["b"], TopLevelStmt.mk ["b"] ["a"]]) ∧
    ∃ e, topoSort [TopLevelStmt.mk ["a"] ["b"], TopLevelStmt.mk ["b"] ["a"]] = .error e := by
  have hC : ¬ Acyclic [TopLevelStmt.mk ["a"] ["b"], TopLevelStmt.mk ["b"] ["a"]] := by
    intro hA
    apply hA 0
    have e01 : depEdge [TopLevelStmt.mk ["a"] ["b"], TopLevelStmt.mk ["b"] ["a"]] 0 1 :=
      ⟨by decide, TopLevelStmt.mk ["a"] ["b"], TopLevelStmt.mk ["b"] ["a"], rfl, rfl, by decide⟩
    have e10 : depEdge [TopLevelStmt.mk ["a"] ["b"], TopLevelStmt.mk ["b"] ["a"]] 1 0 :=
      ⟨by decide, TopLevelStmt.mk ["b"] ["a"], TopLevelStmt.mk ["a"] ["b"], rfl, rfl, by decide⟩
    exact Relation.TransGen.head e01 (Relation.TransGen.single e10)
  exact ⟨hC, topoSort_cyclic_error _ hC⟩

end Have
